import Mathlib

/-!
# Dialog Stack Manager — shallow embedding and verification

This file embeds the dialog store (`src/stores/dialogStore.ts`) as a pure
state machine and proves the specified properties about it.

Modelling conventions:
* Vue `Component` values, the `props` bag and the `pt` bag are opaque to the
  store; they are modelled as `Nat` identifiers (resp. `Option Nat`).
* Callbacks are opaque; the store only ever *invokes* `onClose`, so an entry
  records whether an `onClose` callback was supplied (`hasOnClose`) and the
  state carries a log of the keys whose `onClose` call site was executed.
* `Math.random().toString(36)` is modelled by its resulting digit string.
* JavaScript `Array.prototype.findIndex` is modelled by `findIndex?`
  (`none` plays the role of `-1`), `splice(i, 1)` by `List.eraseIdx`,
  `splice(i, 0, x)` by `take i ++ x :: drop i`, `shift()` by `eraseIdx 0`.
* Object identity (`===`, `indexOf`) is modelled positionally: every object
  stored in the stack is a distinct allocation, so the first array slot whose
  element satisfies the search predicate is the matched object.
-/

namespace DialogStore

/-- The recognized fields of `DialogComponentProps` after entry construction
(`position` and the `pt` bag are opaque to the store's logic and omitted;
`hasOnClose` records whether an `onClose` callback is attached). -/
structure DialogComponentProps where
  maximizable : Bool
  maximized : Bool
  closable : Bool
  modal : Bool
  closeOnEscape : Bool
  dismissableMask : Bool
  hasOnClose : Bool
deriving Repr, DecidableEq

/-- The caller-supplied `dialogComponentProps` option: a partial record whose
present fields are spread over the defaults (`{...defaults, ...options.dialogComponentProps, ...}`). -/
structure DialogComponentPropsPatch where
  maximizable : Option Bool := none
  maximized : Option Bool := none
  closable : Option Bool := none
  modal : Option Bool := none
  closeOnEscape : Option Bool := none
  dismissableMask : Option Bool := none
  hasOnClose : Bool := false
deriving Repr, DecidableEq

/-- `DialogInstance`: one stack entry. `component`/`headerComponent`/
`footerComponent` are opaque component identifiers; `contentProps` is the
snapshot-copied opaque props bag. -/
structure DialogInstance where
  key : String
  visible : Bool
  title : Option String
  headerComponent : Option Nat
  component : Nat
  contentProps : Option Nat
  footerComponent : Option Nat
  dialogComponentProps : DialogComponentProps
  priority : Int
deriving Repr, DecidableEq

/-- `ShowDialogOptions` as accepted by `showDialog` / `showExtensionDialog`. -/
structure ShowDialogOptions where
  key : Option String := none
  title : Option String := none
  headerComponent : Option Nat := none
  footerComponent : Option Nat := none
  component : Nat
  props : Option Nat := none
  dialogComponentProps : Option DialogComponentPropsPatch := none
  priority : Option Int := none
deriving Repr, DecidableEq

/-- The store's state: the dialog stack, the active key, plus a ghost log of
the keys whose `onClose` callback invocation site was executed. -/
structure DialogStoreState where
  dialogStack : List DialogInstance
  activeKey : Option String
  closedCallbackLog : List String
deriving Repr, DecidableEq

/-- JavaScript `Array.prototype.findIndex`, with `none` for `-1`. -/
def findIndex? (p : α → Bool) : List α → Option Nat
  | [] => none
  | a :: as => if p a then some 0 else (findIndex? p as).map (· + 1)

/-- `genDialogKey`: ``dialog-${Math.random().toString(36).slice(2, 9)}``,
where `r` is the digit string `Math.random().toString(36)`. -/
def genDialogKey (r : String) : String :=
  String.mk ("dialog-".data ++ ((r.data.drop 2).take 7))

/-- The insertion index computed by `insertDialogByPriority`:
`findIndex((d) => d.priority <= dialog.priority)`, with `-1` mapped to
`length` by the `splice` call. -/
def insertIndexFor (stack : List DialogInstance) (dialog : DialogInstance) : Nat :=
  match findIndex? (fun d => decide (d.priority ≤ dialog.priority)) stack with
  | none => stack.length
  | some i => i

/-- `insertDialogByPriority`: splice the dialog in at `insertIndexFor`. -/
def insertDialogByPriority (stack : List DialogInstance) (dialog : DialogInstance) :
    List DialogInstance :=
  stack.take (insertIndexFor stack dialog) ++ dialog :: stack.drop (insertIndexFor stack dialog)

/-- Replace entry `dialog.dialogComponentProps` by a copy whose
`closeOnEscape` is `b` (the assignment performed inside
`updateCloseOnEscapeStates`' `forEach`). -/
def setEsc (b : Bool) (d : DialogInstance) : DialogInstance :=
  { d with dialogComponentProps := { d.dialogComponentProps with closeOnEscape := b } }

/-- The `forEach` of `updateCloseOnEscapeStates`: entry number `n + i` gets
`closeOnEscape := (dialog === topDialog && !!topClosable)`, where the top
dialog is identified by its position `topIdx`. -/
def applyEscapeFlags (topIdx : Option Nat) (topClosable : Bool) :
    Nat → List DialogInstance → List DialogInstance
  | _, [] => []
  | n, d :: ds =>
    setEsc (topIdx == some n && topClosable) d :: applyEscapeFlags topIdx topClosable (n + 1) ds

/-- The position of `topDialog`, the first stack entry whose key equals the
active key (`find` returns the first match). -/
def topIdxOf (s : DialogStoreState) : Option Nat :=
  findIndex? (fun d => some d.key == s.activeKey) s.dialogStack

/-- `topDialog?.dialogComponentProps.closable` coerced by `!!` — `false` when
there is no top dialog. -/
def topClosableOf (s : DialogStoreState) : Bool :=
  match topIdxOf s with
  | none => false
  | some i => (((s.dialogStack.get? i).map fun d => d.dialogComponentProps.closable).getD false)

/-- `updateCloseOnEscapeStates`: find the dialog whose key is the active key,
read its `closable` flag, and recompute every entry's `closeOnEscape`. -/
def updateCloseOnEscapeStates (s : DialogStoreState) : DialogStoreState :=
  { s with dialogStack := applyEscapeFlags (topIdxOf s) (topClosableOf s) 0 s.dialogStack }

/-- `riseDialog`: if the key is present, splice the dialog out, re-insert it
by priority, make it active and recompute the escape flags. -/
def riseDialog (s : DialogStoreState) (key : String) : DialogStoreState :=
  match findIndex? (fun d => d.key == key) s.dialogStack with
  | none => s
  | some i =>
    match s.dialogStack.get? i with
    | none => s
    | some dialog =>
      updateCloseOnEscapeStates
        { s with
          dialogStack := insertDialogByPriority (s.dialogStack.eraseIdx i) dialog
          activeKey := some key }

/-- `closeDialog`: resolve the target (explicit key, else the active key),
no-op when it does not resolve; otherwise run its `onClose` call site, splice
it out, reassign the active key to the last entry's key (or null), and
recompute escape flags. The target found by `find` is the first matching
element, whose `indexOf` is its own position. -/
def closeTargetPred (s : DialogStoreState) (targetKey : Option String) :
    DialogInstance → Bool := fun d =>
  match targetKey with
  | some k => d.key == k
  | none => some d.key == s.activeKey

def closeDialog (s : DialogStoreState) (targetKey : Option String) : DialogStoreState :=
  match findIndex? (closeTargetPred s targetKey) s.dialogStack with
  | none => s
  | some i =>
    match s.dialogStack.get? i with
    | none => s
    | some target =>
      updateCloseOnEscapeStates
        { dialogStack := s.dialogStack.eraseIdx i
          activeKey := ((s.dialogStack.eraseIdx i).getLast?).map fun d => d.key
          closedCallbackLog :=
            if target.dialogComponentProps.hasOnClose then s.closedCallbackLog ++ [target.key]
            else s.closedCallbackLog }

/-- The options record passed to `createDialog` (key already resolved). -/
structure CreateDialogOptions where
  key : String
  title : Option String := none
  headerComponent : Option Nat := none
  footerComponent : Option Nat := none
  component : Nat
  props : Option Nat := none
  dialogComponentProps : Option DialogComponentPropsPatch := none
  priority : Option Int := none
deriving Repr, DecidableEq

/-- The `dialogComponentProps` object built inside `createDialog`: defaults,
then the caller patch spread over them, then the forced `maximized: false`
(the injected `onMaximize`/`onUnmaximize`/`onAfterHide`/`pt` hooks are opaque
to the store's own logic). -/
def mkDialogComponentProps (patch : Option DialogComponentPropsPatch) : DialogComponentProps :=
  { maximizable := ((patch.bind fun o => o.maximizable).getD false)
    modal := ((patch.bind fun o => o.modal).getD true)
    closable := ((patch.bind fun o => o.closable).getD true)
    closeOnEscape := ((patch.bind fun o => o.closeOnEscape).getD true)
    dismissableMask := ((patch.bind fun o => o.dismissableMask).getD true)
    maximized := false
    hasOnClose := ((patch.map fun o => o.hasOnClose).getD false) }

/-- The `dialog` object literal built by `createDialog`. -/
def buildDialog (options : CreateDialogOptions) : DialogInstance :=
  { key := options.key
    visible := true
    title := options.title
    headerComponent := options.headerComponent
    footerComponent := options.footerComponent
    component := options.component
    contentProps := options.props
    priority := (options.priority.getD 1)
    dialogComponentProps := mkDialogComponentProps options.dialogComponentProps }

/-- The stack after the capacity check at the top of `createDialog`:
`if (dialogStack.value.length >= 10) dialogStack.value.shift()`. -/
def createStack0 (s : DialogStoreState) : List DialogInstance :=
  if 10 ≤ s.dialogStack.length then s.dialogStack.eraseIdx 0 else s.dialogStack

/-- `createDialog`: if the stack already holds 10 (or more) entries, `shift()`
out the entry at position 0 (without running its `onClose`), then insert the
new entry by priority, make it active and recompute escape flags. -/
def createDialog (s : DialogStoreState) (options : CreateDialogOptions) : DialogStoreState :=
  updateCloseOnEscapeStates
    { s with
      dialogStack := insertDialogByPriority (createStack0 s) (buildDialog options)
      activeKey := some options.key }

/-- `options.key || genDialogKey()`: the empty string is falsy, so it also
falls back to the generated key `genKey`. -/
def resolveShowKey (options : ShowDialogOptions) (genKey : String) : String :=
  match options.key with
  | some k => if k = "" then genKey else k
  | none => genKey

/-- `{ ...options, key: dialogKey }` as passed to `createDialog`. -/
def toCreateOptions (options : ShowDialogOptions) (key : String) : CreateDialogOptions :=
  { key := key
    title := options.title
    headerComponent := options.headerComponent
    footerComponent := options.footerComponent
    component := options.component
    props := options.props
    dialogComponentProps := options.dialogComponentProps
    priority := options.priority }

/-- `dialog.visible = true` on the entry at position `i`. -/
def setVisibleTrueAt : List DialogInstance → Nat → List DialogInstance
  | [], _ => []
  | d :: ds, 0 => { d with visible := true } :: ds
  | d :: ds, i + 1 => d :: setVisibleTrueAt ds i

/-- `showDialog`: resolve the key (falling back to the generated key
`genKey`); if an entry with that key exists, set it visible and rise it,
otherwise create a fresh entry. -/
def showDialog (s : DialogStoreState) (options : ShowDialogOptions) (genKey : String) :
    DialogStoreState :=
  match findIndex? (fun d => d.key == resolveShowKey options genKey) s.dialogStack with
  | some i =>
    riseDialog { s with dialogStack := setVisibleTrueAt s.dialogStack i }
      (resolveShowKey options genKey)
  | none => createDialog s (toCreateOptions options (resolveShowKey options genKey))

/-- The extension key: `key.startsWith('extension-') ? key : 'extension-' + key`. -/
def extensionKeyOf (key : String) : String :=
  if "extension-".data.isPrefixOf key.data then key else "extension-" ++ key

/-- `showExtensionDialog`: error out (no mutation) on a falsy key, otherwise
namespace the key and either create the entry or set it visible and rise it. -/
def showExtensionDialog (s : DialogStoreState) (options : ShowDialogOptions) :
    DialogStoreState :=
  if (options.key).getD "" = "" then s
  else
    match findIndex?
        (fun d => d.key == extensionKeyOf ((options.key).getD "")) s.dialogStack with
    | none => createDialog s (toCreateOptions options (extensionKeyOf ((options.key).getD "")))
    | some i =>
      riseDialog { s with dialogStack := setVisibleTrueAt s.dialogStack i }
        (extensionKeyOf ((options.key).getD ""))

/-- `isDialogOpen`: membership of the key in the stack. -/
def isDialogOpen (s : DialogStoreState) (key : String) : Bool :=
  s.dialogStack.any fun d => d.key == key

/-- The dialog object a `showDialog` / `showExtensionDialog` call returns:
the (first) stack entry carrying the shown key in the resulting state. -/
def shownDialog (s : DialogStoreState) (key : String) : Option DialogInstance :=
  s.dialogStack.find? fun d => d.key == key

/-- One public façade operation of the store. -/
inductive DialogOp where
  | show (options : ShowDialogOptions) (genKey : String)
  | showExtension (options : ShowDialogOptions)
  | rise (key : String)
  | close (targetKey : Option String)
deriving Repr

/-- Apply one public operation. -/
def applyOp (s : DialogStoreState) : DialogOp → DialogStoreState
  | .show options genKey => showDialog s options genKey
  | .showExtension options => showExtensionDialog s options
  | .rise key => riseDialog s key
  | .close targetKey => closeDialog s targetKey

/-- The store's initial state: empty stack, null active key. -/
def initState : DialogStoreState :=
  { dialogStack := [], activeKey := none, closedCallbackLog := [] }

/-- Run a sequence of public operations from the initial state. -/
def runOps (ops : List DialogOp) : DialogStoreState :=
  ops.foldl applyOp initState

/-- The keys of a stack, in order. -/
def keysOf (l : List DialogInstance) : List String := l.map fun d => d.key

/-- The priorities of a stack, in order. -/
def priosOf (l : List DialogInstance) : List Int := l.map fun d => d.priority

/-- The `closeOnEscape` flag of an entry. -/
def escFlag (d : DialogInstance) : Bool := d.dialogComponentProps.closeOnEscape

/-! ## Basic lemmas about the list helpers -/

@[simp] theorem keysOf_nil : keysOf [] = [] := rfl

@[simp] theorem keysOf_cons (d : DialogInstance) (l : List DialogInstance) :
    keysOf (d :: l) = d.key :: keysOf l := rfl

@[simp] theorem keysOf_append (l₁ l₂ : List DialogInstance) :
    keysOf (l₁ ++ l₂) = keysOf l₁ ++ keysOf l₂ := by
  simp [keysOf]

@[simp] theorem priosOf_nil : priosOf [] = [] := rfl

@[simp] theorem priosOf_cons (d : DialogInstance) (l : List DialogInstance) :
    priosOf (d :: l) = d.priority :: priosOf l := rfl

@[simp] theorem priosOf_append (l₁ l₂ : List DialogInstance) :
    priosOf (l₁ ++ l₂) = priosOf l₁ ++ priosOf l₂ := by
  simp [priosOf]

@[simp] theorem length_keysOf (l : List DialogInstance) : (keysOf l).length = l.length := by
  simp [keysOf]

theorem mem_keysOf {k : String} {l : List DialogInstance} :
    k ∈ keysOf l ↔ ∃ d ∈ l, d.key = k := by
  simp [keysOf, eq_comm]

@[simp] theorem escFlag_setEsc (b : Bool) (d : DialogInstance) : escFlag (setEsc b d) = b := rfl

@[simp] theorem key_setEsc (b : Bool) (d : DialogInstance) : (setEsc b d).key = d.key := rfl

theorem map_eraseIdx (f : α → β) : ∀ (l : List α) (i : Nat),
    (l.eraseIdx i).map f = (l.map f).eraseIdx i
  | [], _ => by simp
  | _ :: _, 0 => by simp
  | a :: l, i + 1 => by simp [List.eraseIdx, map_eraseIdx f l i]

theorem not_mem_eraseIdx_of_nodup {L : List α} :
    ∀ {i : Nat} {a : α}, L.Nodup → L.get? i = some a → a ∉ L.eraseIdx i := by
  induction L with
  | nil => intro i a _ hg; simp at hg
  | cons b L ih =>
    intro i a hnd hg
    rcases List.nodup_cons.mp hnd with ⟨hb, hL⟩
    match i with
    | 0 =>
      simp only [List.get?] at hg
      cases hg
      simpa using hb
    | i + 1 =>
      simp only [List.get?] at hg
      have ha : a ∈ L := List.get?_mem hg
      intro hmem
      simp only [List.eraseIdx, List.mem_cons] at hmem
      rcases hmem with rfl | hmem
      · exact hb ha
      · exact ih hL hg hmem

/-! ## `findIndex?` lemmas -/

theorem findIndex?_eq_none_iff {p : α → Bool} {l : List α} :
    findIndex? p l = none ↔ ∀ a ∈ l, p a = false := by
  induction l with
  | nil => simp [findIndex?]
  | cons a as ih =>
    by_cases h : p a <;> simp [findIndex?, h, ih]

theorem findIndex?_lt_length {p : α → Bool} {l : List α} {i : Nat}
    (h : findIndex? p l = some i) : i < l.length := by
  induction l generalizing i with
  | nil => simp [findIndex?] at h
  | cons a as ih =>
    rw [findIndex?] at h
    by_cases hp : p a
    · simp only [hp, if_true, Option.some.injEq] at h
      subst h
      simp
    · cases hf : findIndex? p as with
      | none => simp [hp, hf] at h
      | some j =>
        simp [hp, hf] at h
        subst h
        simpa using Nat.succ_lt_succ (ih hf)

theorem findIndex?_get? {p : α → Bool} {l : List α} {i : Nat}
    (h : findIndex? p l = some i) : ∃ a, l.get? i = some a ∧ p a = true := by
  induction l generalizing i with
  | nil => simp [findIndex?] at h
  | cons a as ih =>
    rw [findIndex?] at h
    by_cases hp : p a
    · simp only [hp, if_true, Option.some.injEq] at h
      subst h
      exact ⟨a, rfl, hp⟩
    · cases hf : findIndex? p as with
      | none => simp [hp, hf] at h
      | some j =>
        simp [hp, hf] at h
        subst h
        simpa using ih hf

theorem findIndex?_comp (p : β → Bool) (f : α → β) (l : List α) :
    findIndex? p (l.map f) = findIndex? (fun a => p (f a)) l := by
  induction l with
  | nil => rfl
  | cons a as ih => by_cases h : p (f a) <;> simp [findIndex?, h, ih]

theorem findIndex?_exists_of_mem {p : α → Bool} {l : List α} {a : α}
    (ha : a ∈ l) (hp : p a = true) : ∃ i, findIndex? p l = some i := by
  cases h : findIndex? p l with
  | some i => exact ⟨i, rfl⟩
  | none =>
    rw [findIndex?_eq_none_iff] at h
    rw [h a ha] at hp
    cases hp

/-- In a stack with distinct keys, `findIndex` on a key present in the stack
finds exactly the entry holding that key. -/
theorem findIndex?_key_of_nodup {l : List DialogInstance} {d : DialogInstance} {k : String}
    (hnd : (keysOf l).Nodup) (hd : d ∈ l) (hk : d.key = k) :
    ∃ i, findIndex? (fun x => x.key == k) l = some i ∧ l.get? i = some d := by
  induction l with
  | nil => cases hd
  | cons a as ih =>
    rcases List.nodup_cons.mp (by simpa using hnd) with ⟨hanotin, hndas⟩
    by_cases ha : a.key = k
    · rcases List.mem_cons.mp hd with rfl | hdas
      · exact ⟨0, by simp [findIndex?, ha], rfl⟩
      · exact absurd (mem_keysOf.mpr ⟨d, hdas, hk.trans ha.symm⟩) hanotin
    · have hdas : d ∈ as := by
        rcases List.mem_cons.mp hd with rfl | h
        · exact absurd hk ha
        · exact h
      obtain ⟨i, hfi, hgi⟩ := ih hndas hdas
      refine ⟨i + 1, ?_, by simpa using hgi⟩
      simp [findIndex?, ha, hfi]

/-! ## `insertDialogByPriority` as an ordered insertion -/

/-- Recursive reformulation of `insertDialogByPriority`: walk the stack and
insert before the first entry whose priority is `≤` the new dialog's. -/
def insertRec (dialog : DialogInstance) : List DialogInstance → List DialogInstance
  | [] => [dialog]
  | d :: ds =>
    if d.priority ≤ dialog.priority then dialog :: d :: ds else d :: insertRec dialog ds

theorem insertIndexFor_cons (a : DialogInstance) (l : List DialogInstance) (d : DialogInstance) :
    insertIndexFor (a :: l) d =
      if a.priority ≤ d.priority then 0 else insertIndexFor l d + 1 := by
  by_cases h : a.priority ≤ d.priority
  · simp [insertIndexFor, findIndex?, h]
  · cases hf : findIndex? (fun x => decide (x.priority ≤ d.priority)) l with
    | none => simp [insertIndexFor, findIndex?, h, hf]
    | some j => simp [insertIndexFor, findIndex?, h, hf]

theorem insertDialogByPriority_eq_insertRec (d : DialogInstance) :
    ∀ l : List DialogInstance, insertDialogByPriority l d = insertRec d l := by
  intro l
  induction l with
  | nil => rfl
  | cons a l ih =>
    rw [insertDialogByPriority, insertIndexFor_cons]
    by_cases h : a.priority ≤ d.priority
    · simp [h, insertRec]
    · simp only [h, if_false, insertRec, List.take_succ_cons, List.drop_succ_cons,
        List.cons_append]
      rw [← insertDialogByPriority, ih]

/-- The inserted stack is the old stack split around the new dialog. -/
theorem insertRec_append (d : DialogInstance) :
    ∀ l : List DialogInstance, ∃ A B, insertRec d l = A ++ d :: B ∧ l = A ++ B := by
  intro l
  induction l with
  | nil => exact ⟨[], [], rfl, rfl⟩
  | cons a l ih =>
    by_cases h : a.priority ≤ d.priority
    · exact ⟨[], a :: l, by simp [insertRec, h], rfl⟩
    · obtain ⟨A, B, h1, h2⟩ := ih
      exact ⟨a :: A, B, by simp [insertRec, h, h1], by simp [h2]⟩

theorem mem_insertRec {x d : DialogInstance} {l : List DialogInstance} :
    x ∈ insertRec d l ↔ x = d ∨ x ∈ l := by
  obtain ⟨A, B, h1, h2⟩ := insertRec_append d l
  subst h2
  rw [h1]
  simp only [List.mem_append, List.mem_cons]
  tauto

theorem length_insertRec (d : DialogInstance) (l : List DialogInstance) :
    (insertRec d l).length = l.length + 1 := by
  obtain ⟨A, B, h1, h2⟩ := insertRec_append d l
  subst h2
  rw [h1]
  simp
  omega

theorem countP_insertRec (p : DialogInstance → Bool) (d : DialogInstance)
    (l : List DialogInstance) :
    (insertRec d l).countP p = l.countP p + if p d then 1 else 0 := by
  obtain ⟨A, B, h1, h2⟩ := insertRec_append d l
  subst h2
  rw [h1]
  simp [List.countP_append, List.countP_cons]
  omega

theorem mem_keysOf_insertRec {k : String} {d : DialogInstance} {l : List DialogInstance} :
    k ∈ keysOf (insertRec d l) ↔ k = d.key ∨ k ∈ keysOf l := by
  simp only [mem_keysOf]
  constructor
  · rintro ⟨x, hx, rfl⟩
    rcases mem_insertRec.mp hx with rfl | hxl
    · exact Or.inl rfl
    · exact Or.inr ⟨x, hxl, rfl⟩
  · rintro (rfl | ⟨x, hx, rfl⟩)
    · exact ⟨d, mem_insertRec.mpr (Or.inl rfl), rfl⟩
    · exact ⟨x, mem_insertRec.mpr (Or.inr hx), rfl⟩

theorem nodup_keysOf_insertRec {d : DialogInstance} {l : List DialogInstance}
    (hnd : (keysOf l).Nodup) (hk : d.key ∉ keysOf l) :
    (keysOf (insertRec d l)).Nodup := by
  obtain ⟨A, B, h1, h2⟩ := insertRec_append d l
  subst h2
  rw [h1]
  simp only [keysOf_append, keysOf_cons]
  rw [List.nodup_middle]
  rw [List.nodup_cons]
  exact ⟨by simpa using hk, by simpa using hnd⟩

/-- Ordered insertion keeps the stack sorted by descending priority. -/
theorem sorted_insertRec {d : DialogInstance} {l : List DialogInstance}
    (hs : List.Pairwise (fun x y : Int => y ≤ x) (priosOf l)) :
    List.Pairwise (fun x y : Int => y ≤ x) (priosOf (insertRec d l)) := by
  induction l with
  | nil => simp [insertRec, priosOf]
  | cons a l ih =>
    rw [priosOf_cons, List.pairwise_cons] at hs
    obtain ⟨ha, hl⟩ := hs
    by_cases h : a.priority ≤ d.priority
    · rw [insertRec, if_pos h]
      simp only [priosOf_cons, List.pairwise_cons]
      refine ⟨?_, ?_⟩
      · intro y hy
        rcases List.mem_cons.mp hy with rfl | hy'
        · exact h
        · exact le_trans (ha y hy') h
      · exact ⟨ha, hl⟩
    · rw [insertRec, if_neg h]
      simp only [priosOf_cons, List.pairwise_cons]
      refine ⟨?_, ih hl⟩
      intro y hy
      have : y = d.priority ∨ y ∈ priosOf l := by
        simp only [priosOf, List.mem_map] at hy
        obtain ⟨x, hx, rfl⟩ := hy
        rcases mem_insertRec.mp hx with rfl | hxl
        · exact Or.inl rfl
        · exact Or.inr (by simp [priosOf]; exact ⟨x, hxl, rfl⟩)
      rcases this with rfl | hy'
      · exact le_of_lt (lt_of_not_le h)
      · exact ha y hy'

/-! ## `applyEscapeFlags` lemmas -/

theorem keysOf_applyEscapeFlags (t : Option Nat) (c : Bool) :
    ∀ (l : List DialogInstance) (n : Nat), keysOf (applyEscapeFlags t c n l) = keysOf l
  | [], _ => rfl
  | d :: ds, n => by
    simp [applyEscapeFlags, keysOf_applyEscapeFlags t c ds (n + 1)]

@[simp] theorem prio_setEsc (b : Bool) (d : DialogInstance) :
    (setEsc b d).priority = d.priority := rfl

@[simp] theorem visible_setEsc (b : Bool) (d : DialogInstance) :
    (setEsc b d).visible = d.visible := rfl

theorem priosOf_applyEscapeFlags (t : Option Nat) (c : Bool) :
    ∀ (l : List DialogInstance) (n : Nat), priosOf (applyEscapeFlags t c n l) = priosOf l
  | [], _ => rfl
  | d :: ds, n => by
    simp only [applyEscapeFlags, priosOf_cons, prio_setEsc,
      priosOf_applyEscapeFlags t c ds (n + 1)]

theorem length_applyEscapeFlags (t : Option Nat) (c : Bool) :
    ∀ (l : List DialogInstance) (n : Nat), (applyEscapeFlags t c n l).length = l.length
  | [], _ => rfl
  | d :: ds, n => by
    simp [applyEscapeFlags, length_applyEscapeFlags t c ds (n + 1)]

theorem applyEscapeFlags_append (t : Option Nat) (c : Bool) :
    ∀ (A B : List DialogInstance) (n : Nat),
      applyEscapeFlags t c n (A ++ B) =
        applyEscapeFlags t c n A ++ applyEscapeFlags t c (n + A.length) B
  | [], B, n => by simp [applyEscapeFlags]
  | a :: A, B, n => by
    simp only [List.cons_append, applyEscapeFlags, List.append_eq,
      applyEscapeFlags_append t c A B (n + 1), List.length_cons]
    have h1 : n + 1 + A.length = n + (A.length + 1) := by omega
    rw [h1]

theorem applyEscapeFlags_get? (t : Option Nat) (c : Bool) :
    ∀ (l : List DialogInstance) (n i : Nat),
      (applyEscapeFlags t c n l).get? i = (l.get? i).map (setEsc (t == some (n + i) && c))
  | [], n, i => by simp [applyEscapeFlags]
  | d :: ds, n, 0 => by simp [applyEscapeFlags]
  | d :: ds, n, i + 1 => by
    simp only [applyEscapeFlags, List.get?]
    rw [applyEscapeFlags_get? t c ds (n + 1) i]
    have h1 : n + 1 + i = n + (i + 1) := by omega
    rw [h1]

theorem escFlag_applyEscapeFlags_false {c : Bool} {m : Nat} :
    ∀ {l : List DialogInstance} {n : Nat}, m < n →
      ∀ x ∈ applyEscapeFlags (some m) c n l, escFlag x = false := by
  intro l
  induction l with
  | nil => intro n _ x hx; simp [applyEscapeFlags] at hx
  | cons d ds ih =>
    intro n hmn x hx
    simp only [applyEscapeFlags, List.mem_cons] at hx
    rcases hx with rfl | hx
    · have : (some m == some n) = false := by
        apply beq_eq_false_iff_ne.mpr
        intro hcon
        cases hcon
        omega
      simp [this]
    · exact ih (by omega) x hx

theorem countP_escFlag_applyEscapeFlags (t : Option Nat) (c : Bool) :
    ∀ (l : List DialogInstance) (n : Nat),
      (applyEscapeFlags t c n l).countP escFlag ≤ 1 := by
  intro l
  induction l with
  | nil => intro n; simp [applyEscapeFlags]
  | cons d ds ih =>
    intro n
    rw [applyEscapeFlags, List.countP_cons]
    by_cases hf : escFlag (setEsc (t == some n && c) d) = true
    · rw [escFlag_setEsc] at hf
      obtain ⟨ht, hc⟩ := Bool.and_eq_true_iff.mp hf
      have ht' : t = some n := by
        cases t with
        | none => simp at ht
        | some m =>
          have : m = n := by simpa using ht
          rw [this]
      subst ht'
      have hz : (applyEscapeFlags (some n) c (n + 1) ds).countP escFlag = 0 := by
        rw [List.countP_eq_zero]
        intro x hx
        simp [escFlag_applyEscapeFlags_false (by omega) x hx]
      have hone : escFlag (setEsc (some n == some n && c) d) = true := by
        rw [escFlag_setEsc]
        exact hf
      rw [hz, if_pos hone]
    · have hg : (escFlag (setEsc (t == some n && c) d)) = false := by
        simpa using hf
      simp only [hg, if_false]
      simpa using ih (n + 1)

/-! ## `updateCloseOnEscapeStates` lemmas -/

@[simp] theorem closable_setEsc (b : Bool) (d : DialogInstance) :
    (setEsc b d).dialogComponentProps.closable = d.dialogComponentProps.closable := rfl

@[simp] theorem update_activeKey (s : DialogStoreState) :
    (updateCloseOnEscapeStates s).activeKey = s.activeKey := rfl

@[simp] theorem update_log (s : DialogStoreState) :
    (updateCloseOnEscapeStates s).closedCallbackLog = s.closedCallbackLog := rfl

theorem keysOf_update (s : DialogStoreState) :
    keysOf (updateCloseOnEscapeStates s).dialogStack = keysOf s.dialogStack :=
  keysOf_applyEscapeFlags _ _ _ _

theorem priosOf_update (s : DialogStoreState) :
    priosOf (updateCloseOnEscapeStates s).dialogStack = priosOf s.dialogStack :=
  priosOf_applyEscapeFlags _ _ _ _

theorem length_update (s : DialogStoreState) :
    (updateCloseOnEscapeStates s).dialogStack.length = s.dialogStack.length :=
  length_applyEscapeFlags _ _ _ _

theorem update_escAtMostOne (s : DialogStoreState) :
    (updateCloseOnEscapeStates s).dialogStack.countP escFlag ≤ 1 :=
  countP_escFlag_applyEscapeFlags _ _ _ _

/-- After `updateCloseOnEscapeStates`, an entry whose `closeOnEscape` flag is
set is the active entry and is closable. -/
theorem update_escActive (s : DialogStoreState) :
    ∀ x ∈ (updateCloseOnEscapeStates s).dialogStack, escFlag x = true →
      some x.key = s.activeKey ∧ x.dialogComponentProps.closable = true := by
  intro x hx hfl
  rw [List.mem_iff_get?] at hx
  obtain ⟨i, hi⟩ := hx
  have hg : (applyEscapeFlags (topIdxOf s) (topClosableOf s) 0 s.dialogStack).get? i = some x := hi
  rw [applyEscapeFlags_get?] at hg
  obtain ⟨d, hd, hxd⟩ := Option.map_eq_some'.mp hg
  rw [← hxd] at hfl
  rw [escFlag_setEsc] at hfl
  obtain ⟨hti, htc⟩ := Bool.and_eq_true_iff.mp hfl
  have hti' : topIdxOf s = some (0 + i) := eq_of_beq hti
  have hti2 : findIndex? (fun d => some d.key == s.activeKey) s.dialogStack = some (0 + i) := hti'
  obtain ⟨dtop, hdt, hpt⟩ := findIndex?_get? hti2
  have hzi : (0 : Nat) + i = i := by omega
  rw [hzi] at hdt
  rw [hd] at hdt
  have hdd : d = dtop := Option.some.inj hdt
  have hcl : topClosableOf s = d.dialogComponentProps.closable := by
    rw [topClosableOf, hti']
    simp only [hzi, hd, Option.map_some', Option.getD_some]
  constructor
  · rw [← hxd, key_setEsc, hdd]
    exact eq_of_beq hpt
  · rw [← hxd, closable_setEsc, ← hcl]
    exact htc

/-! ## `setVisibleTrueAt` lemmas -/

@[simp] theorem keysOf_setVisibleTrueAt :
    ∀ (l : List DialogInstance) (i : Nat), keysOf (setVisibleTrueAt l i) = keysOf l
  | [], _ => rfl
  | d :: ds, 0 => rfl
  | d :: ds, i + 1 => by
    simp [setVisibleTrueAt, keysOf_setVisibleTrueAt ds i]

@[simp] theorem priosOf_setVisibleTrueAt :
    ∀ (l : List DialogInstance) (i : Nat), priosOf (setVisibleTrueAt l i) = priosOf l
  | [], _ => rfl
  | d :: ds, 0 => rfl
  | d :: ds, i + 1 => by
    simp [setVisibleTrueAt, priosOf_setVisibleTrueAt ds i]

@[simp] theorem length_setVisibleTrueAt :
    ∀ (l : List DialogInstance) (i : Nat), (setVisibleTrueAt l i).length = l.length
  | [], _ => rfl
  | d :: ds, 0 => rfl
  | d :: ds, i + 1 => by
    simp [setVisibleTrueAt, length_setVisibleTrueAt ds i]

theorem setVisibleTrueAt_get?_self :
    ∀ (l : List DialogInstance) (i : Nat),
      (setVisibleTrueAt l i).get? i = (l.get? i).map fun d => { d with visible := true }
  | [], i => by simp [setVisibleTrueAt]
  | d :: ds, 0 => rfl
  | d :: ds, i + 1 => by
    simpa [setVisibleTrueAt, List.get?] using setVisibleTrueAt_get?_self ds i

theorem mem_setVisibleTrueAt :
    ∀ {l : List DialogInstance} {i : Nat} {x : DialogInstance},
      x ∈ setVisibleTrueAt l i → x ∈ l ∨ ∃ y ∈ l, x = { y with visible := true } := by
  intro l
  induction l with
  | nil => intro i x hx; simp [setVisibleTrueAt] at hx
  | cons d ds ih =>
    intro i x hx
    match i with
    | 0 =>
      rcases List.mem_cons.mp hx with rfl | hx'
      · exact Or.inr ⟨d, List.mem_cons_self d ds, rfl⟩
      · exact Or.inl (List.mem_cons_of_mem d hx')
    | i + 1 =>
      rcases List.mem_cons.mp hx with rfl | hx'
      · exact Or.inl (List.mem_cons_self x ds)
      · rcases ih hx' with h | ⟨y, hy, rfl⟩
        · exact Or.inl (List.mem_cons_of_mem d h)
        · exact Or.inr ⟨y, List.mem_cons_of_mem d hy, rfl⟩

theorem countP_escFlag_setVisibleTrueAt :
    ∀ (l : List DialogInstance) (i : Nat),
      (setVisibleTrueAt l i).countP escFlag = l.countP escFlag
  | [], _ => rfl
  | d :: ds, 0 => by simp [setVisibleTrueAt, List.countP_cons, escFlag]
  | d :: ds, i + 1 => by
    simp [setVisibleTrueAt, List.countP_cons, countP_escFlag_setVisibleTrueAt ds i]

/-! ## `eraseIdx` transport lemmas -/

theorem keysOf_eraseIdx (l : List DialogInstance) (i : Nat) :
    keysOf (l.eraseIdx i) = (keysOf l).eraseIdx i :=
  map_eraseIdx _ l i

theorem priosOf_eraseIdx (l : List DialogInstance) (i : Nat) :
    priosOf (l.eraseIdx i) = (priosOf l).eraseIdx i :=
  map_eraseIdx _ l i

/-! ## The store invariant -/

/-- The invariant maintained by every public operation of the store:
the stack is sorted by descending priority, keys are unique, at most one
entry carries `closeOnEscape` (and it is the closable active entry), the
active key (when set) names a stack member and is null on the empty stack,
and the stack never exceeds 10 entries. -/
structure Inv (s : DialogStoreState) : Prop where
  sorted : List.Pairwise (fun x y : Int => y ≤ x) (priosOf s.dialogStack)
  nodup : (keysOf s.dialogStack).Nodup
  escAtMostOne : s.dialogStack.countP escFlag ≤ 1
  escActive : ∀ d ∈ s.dialogStack, escFlag d = true →
    some d.key = s.activeKey ∧ d.dialogComponentProps.closable = true
  activeMem : ∀ k, s.activeKey = some k → k ∈ keysOf s.dialogStack
  emptyNone : s.dialogStack = [] → s.activeKey = none
  capacity : s.dialogStack.length ≤ 10

theorem update_stack_nil {s0 : DialogStoreState}
    (h : (updateCloseOnEscapeStates s0).dialogStack = []) : s0.dialogStack = [] := by
  have hl := length_update s0
  rw [h] at hl
  exact List.length_eq_zero.mp hl.symm

/-- Invariant of a state of the shape produced by `riseDialog` (found case)
and `createDialog`: a priority insertion into a well-formed stack, with the
inserted dialog made active, followed by the escape-flag recomputation. -/
theorem inv_update_insert {s0 : DialogStoreState} {l : List DialogInstance}
    {d : DialogInstance}
    (hstack : s0.dialogStack = insertDialogByPriority l d)
    (hactive : s0.activeKey = some d.key)
    (hs : List.Pairwise (fun x y : Int => y ≤ x) (priosOf l))
    (hn : (keysOf l).Nodup) (hk : d.key ∉ keysOf l) (hcap : l.length + 1 ≤ 10) :
    Inv (updateCloseOnEscapeStates s0) := by
  refine ⟨?_, ?_, ?_, ?_, ?_, ?_, ?_⟩
  · rw [priosOf_update, hstack, insertDialogByPriority_eq_insertRec]
    exact sorted_insertRec hs
  · rw [keysOf_update, hstack, insertDialogByPriority_eq_insertRec]
    exact nodup_keysOf_insertRec hn hk
  · exact update_escAtMostOne s0
  · intro x hx hf
    rw [update_activeKey]
    exact update_escActive s0 x hx hf
  · intro k hk'
    rw [update_activeKey, hactive] at hk'
    have h2 : k = d.key := (Option.some.inj hk').symm
    subst h2
    rw [keysOf_update, hstack, insertDialogByPriority_eq_insertRec]
    exact mem_keysOf_insertRec.mpr (Or.inl rfl)
  · intro hnil
    exfalso
    have h0 := update_stack_nil hnil
    rw [hstack, insertDialogByPriority_eq_insertRec] at h0
    have h1 := length_insertRec d l
    rw [h0] at h1
    simp at h1
  · rw [length_update, hstack, insertDialogByPriority_eq_insertRec, length_insertRec]
    exact hcap

/-- Invariant of a state of the shape produced by `closeDialog` (found case):
an index removal with the active key reassigned to the last entry. -/
theorem inv_update_erase {s0 s : DialogStoreState} {i : Nat} (h : Inv s)
    (hstack : s0.dialogStack = s.dialogStack.eraseIdx i)
    (hactive : s0.activeKey = ((s.dialogStack.eraseIdx i).getLast?).map fun d => d.key) :
    Inv (updateCloseOnEscapeStates s0) := by
  refine ⟨?_, ?_, ?_, ?_, ?_, ?_, ?_⟩
  · rw [priosOf_update, hstack, priosOf_eraseIdx]
    exact (h.sorted).eraseIdx i
  · rw [keysOf_update, hstack, keysOf_eraseIdx]
    exact (h.nodup).eraseIdx i
  · exact update_escAtMostOne s0
  · intro x hx hf
    rw [update_activeKey]
    exact update_escActive s0 x hx hf
  · intro k hk'
    rw [update_activeKey, hactive] at hk'
    obtain ⟨dl, hdl, hdk⟩ := Option.map_eq_some'.mp hk'
    rw [keysOf_update, hstack, ← hdk]
    exact mem_keysOf.mpr ⟨dl, List.mem_of_getLast?_eq_some hdl, rfl⟩
  · intro hnil
    have h0 := update_stack_nil hnil
    rw [hstack] at h0
    rw [update_activeKey, hactive, h0]
    rfl
  · rw [length_update, hstack]
    exact le_trans (List.length_eraseIdx_le _ _) h.capacity

theorem inv_riseDialog {s : DialogStoreState} (h : Inv s) (k : String) :
    Inv (riseDialog s k) := by
  rw [riseDialog]
  split
  · exact h
  next i hf =>
    split
    · exact h
    next dialog hget =>
      have hi : i < s.dialogStack.length := findIndex?_lt_length hf
      have hdk : dialog.key = k := by
        obtain ⟨a, hga, hpa⟩ := findIndex?_get? hf
        rw [hget] at hga
        cases Option.some.inj hga
        exact eq_of_beq hpa
      have hkg : (keysOf s.dialogStack).get? i = some dialog.key := by
        rw [keysOf, List.get?_map, hget]
        rfl
      refine inv_update_insert rfl ?_ ?_ ?_ ?_ ?_
      · show some k = some dialog.key
        rw [hdk]
      · rw [priosOf_eraseIdx]
        exact (h.sorted).eraseIdx i
      · rw [keysOf_eraseIdx]
        exact (h.nodup).eraseIdx i
      · rw [keysOf_eraseIdx]
        exact not_mem_eraseIdx_of_nodup h.nodup hkg
      · rw [List.length_eraseIdx_of_lt hi]
        have := h.capacity
        omega

theorem inv_closeDialog {s : DialogStoreState} (h : Inv s) (tk : Option String) :
    Inv (closeDialog s tk) := by
  rw [closeDialog]
  split
  · exact h
  next i hf =>
    split
    · exact h
    next target hget => exact inv_update_erase h rfl rfl

theorem inv_setVisible {s : DialogStoreState} (h : Inv s) (i : Nat) :
    Inv { s with dialogStack := setVisibleTrueAt s.dialogStack i } := by
  refine ⟨?_, ?_, ?_, ?_, ?_, ?_, ?_⟩
  · show List.Pairwise _ (priosOf (setVisibleTrueAt s.dialogStack i))
    rw [priosOf_setVisibleTrueAt]
    exact h.sorted
  · show ((keysOf (setVisibleTrueAt s.dialogStack i))).Nodup
    rw [keysOf_setVisibleTrueAt]
    exact h.nodup
  · show (setVisibleTrueAt s.dialogStack i).countP escFlag ≤ 1
    rw [countP_escFlag_setVisibleTrueAt]
    exact h.escAtMostOne
  · intro x hx hfx
    rcases mem_setVisibleTrueAt hx with hxl | ⟨y, hy, rfl⟩
    · exact h.escActive x hxl hfx
    · exact h.escActive y hy hfx
  · intro k hk
    show k ∈ keysOf (setVisibleTrueAt s.dialogStack i)
    rw [keysOf_setVisibleTrueAt]
    exact h.activeMem k hk
  · intro hnil
    apply h.emptyNone
    have h1 : setVisibleTrueAt s.dialogStack i = [] := hnil
    have h2 := length_setVisibleTrueAt s.dialogStack i
    rw [h1] at h2
    exact List.length_eq_zero.mp h2.symm
  · show (setVisibleTrueAt s.dialogStack i).length ≤ 10
    rw [length_setVisibleTrueAt]
    exact h.capacity

theorem inv_createDialog {s : DialogStoreState} (h : Inv s) {co : CreateDialogOptions}
    (hk : co.key ∉ keysOf s.dialogStack) : Inv (createDialog s co) := by
  rw [createDialog]
  have hsub : ∀ k', k' ∈ keysOf (createStack0 s) → k' ∈ keysOf s.dialogStack := by
    intro k' hk'
    rw [createStack0] at hk'
    by_cases hc : 10 ≤ s.dialogStack.length
    · rw [if_pos hc, keysOf_eraseIdx] at hk'
      exact List.eraseIdx_subset _ _ hk'
    · rwa [if_neg hc] at hk'
  have hs0 : List.Pairwise (fun x y : Int => y ≤ x) (priosOf (createStack0 s)) := by
    rw [createStack0]
    by_cases hc : 10 ≤ s.dialogStack.length
    · rw [if_pos hc, priosOf_eraseIdx]
      exact (h.sorted).eraseIdx 0
    · rw [if_neg hc]
      exact h.sorted
  have hn0 : (keysOf (createStack0 s)).Nodup := by
    rw [createStack0]
    by_cases hc : 10 ≤ s.dialogStack.length
    · rw [if_pos hc, keysOf_eraseIdx]
      exact (h.nodup).eraseIdx 0
    · rw [if_neg hc]
      exact h.nodup
  have hcap0 : (createStack0 s).length + 1 ≤ 10 := by
    rw [createStack0]
    by_cases hc : 10 ≤ s.dialogStack.length
    · rw [if_pos hc]
      have h10 : s.dialogStack.length = 10 := le_antisymm h.capacity hc
      rw [List.length_eraseIdx_of_lt (by omega)]
      omega
    · rw [if_neg hc]
      have := h.capacity
      omega
  have hk0 : (buildDialog co).key ∉ keysOf (createStack0 s) := by
    intro hmem
    exact hk (hsub _ hmem)
  exact inv_update_insert rfl rfl hs0 hn0 hk0 hcap0

theorem inv_showDialog {s : DialogStoreState} (h : Inv s) (o : ShowDialogOptions)
    (g : String) : Inv (showDialog s o g) := by
  rw [showDialog]
  split
  next i hf => exact inv_riseDialog (inv_setVisible h i) _
  next hf =>
    apply inv_createDialog h
    intro hmem
    rw [findIndex?_eq_none_iff] at hf
    have hmem' : resolveShowKey o g ∈ keysOf s.dialogStack := hmem
    obtain ⟨d, hd, hdk⟩ := mem_keysOf.mp hmem'
    have hcon := hf d hd
    rw [hdk] at hcon
    simp at hcon

theorem inv_showExtensionDialog {s : DialogStoreState} (h : Inv s)
    (o : ShowDialogOptions) : Inv (showExtensionDialog s o) := by
  rw [showExtensionDialog]
  split
  · exact h
  next hke =>
    split
    next hf =>
      apply inv_createDialog h
      intro hmem
      rw [findIndex?_eq_none_iff] at hf
      have hmem' : extensionKeyOf ((o.key).getD "") ∈ keysOf s.dialogStack := hmem
      obtain ⟨d, hd, hdk⟩ := mem_keysOf.mp hmem'
      have hcon := hf d hd
      rw [hdk] at hcon
      simp at hcon
    next i hf => exact inv_riseDialog (inv_setVisible h i) _

theorem inv_applyOp {s : DialogStoreState} (h : Inv s) (op : DialogOp) :
    Inv (applyOp s op) := by
  match op with
  | .show o g => exact inv_showDialog h o g
  | .showExtension o => exact inv_showExtensionDialog h o
  | .rise k => exact inv_riseDialog h k
  | .close tk => exact inv_closeDialog h tk

theorem inv_initState : Inv initState := by
  refine ⟨?_, ?_, ?_, ?_, ?_, ?_, ?_⟩ <;> simp [initState, keysOf, priosOf]

theorem inv_foldl (l : List DialogOp) :
    ∀ s : DialogStoreState, Inv s → Inv (l.foldl applyOp s) := by
  induction l with
  | nil => intro s hs; exact hs
  | cons op l ih =>
    intro s hs
    rw [List.foldl_cons]
    exact ih _ (inv_applyOp hs op)

/-- Every reachable state of the store satisfies the invariant. -/
theorem inv_runOps (ops : List DialogOp) : Inv (runOps ops) :=
  inv_foldl ops initState inv_initState

/-! ## Anatomy of the `show` operations -/

theorem countP_key_eq (l : List DialogInstance) (k : String) :
    l.countP (fun x => x.key == k) = (keysOf l).countP (fun s => s == k) := by
  rw [keysOf, List.countP_map]
  rfl

theorem countP_beq_eq_zero {L : List String} {k : String} (h : k ∉ L) :
    L.countP (fun s => s == k) = 0 := by
  rw [List.countP_eq_zero]
  intro x hx hbeq
  exact h (eq_of_beq hbeq ▸ hx)

theorem findIndex?_key_congr {l₁ l₂ : List DialogInstance}
    (h : keysOf l₁ = keysOf l₂) (k : String) :
    findIndex? (fun d => d.key == k) l₁ = findIndex? (fun d => d.key == k) l₂ := by
  have h1 : findIndex? (fun d => d.key == k) l₁
      = findIndex? (fun s => s == k) (keysOf l₁) := by
    rw [keysOf, findIndex?_comp]
  have h2 : findIndex? (fun d => d.key == k) l₂
      = findIndex? (fun s => s == k) (keysOf l₂) := by
    rw [keysOf, findIndex?_comp]
  rw [h1, h2, h]

/-- In the recomputed stack, looking up the key of a freshly inserted dialog
(whose key occurs nowhere else) returns that dialog, with only its
`closeOnEscape` flag rewritten. -/
theorem find?_key_applyEscapeFlags_insert {t : Option Nat} {c : Bool}
    {l : List DialogInstance} {d : DialogInstance} {k : String}
    (hd : d.key = k) (hnk : k ∉ keysOf l) :
    ∃ b : Bool, (applyEscapeFlags t c 0 (insertRec d l)).find? (fun x => x.key == k)
      = some (setEsc b d) := by
  obtain ⟨A, B, h1, h2⟩ := insertRec_append d l
  subst h2
  rw [h1, applyEscapeFlags_append, List.find?_append]
  have hA : (applyEscapeFlags t c 0 A).find? (fun x => x.key == k) = none := by
    rw [List.find?_eq_none]
    intro x hx hbeq
    have hxk : x.key ∈ keysOf (applyEscapeFlags t c 0 A) := mem_keysOf.mpr ⟨x, hx, rfl⟩
    rw [keysOf_applyEscapeFlags] at hxk
    apply hnk
    rw [← eq_of_beq hbeq]
    rw [keysOf_append]
    exact List.mem_append_left _ hxk
  rw [hA, Option.none_or, applyEscapeFlags, List.find?_cons_of_pos]
  · exact ⟨_, rfl⟩
  · show ((setEsc _ d).key == k) = true
    rw [key_setEsc, hd]
    simp

/-- Looking up the inserted dialog's key after an insert-and-update state
transition. -/
theorem shownDialog_update_insert {s0 : DialogStoreState} {l : List DialogInstance}
    {d : DialogInstance} {k : String}
    (hstack : s0.dialogStack = insertDialogByPriority l d)
    (hd : d.key = k) (hnk : k ∉ keysOf l) :
    ∃ b : Bool, shownDialog (updateCloseOnEscapeStates s0) k = some (setEsc b d) := by
  show ∃ b : Bool,
    (applyEscapeFlags (topIdxOf s0) (topClosableOf s0) 0 s0.dialogStack).find?
      (fun x => x.key == k) = some (setEsc b d)
  rw [hstack, insertDialogByPriority_eq_insertRec]
  exact find?_key_applyEscapeFlags_insert hd hnk

/-- Full anatomy of `riseDialog` on a stack with distinct keys holding the
key at position `i`: the stack length, the callback log and the key count
are unchanged, the key becomes active, and the risen entry keeps all its
fields except the recomputed `closeOnEscape`. -/
theorem riseDialog_anatomy {s : DialogStoreState} {k : String} {i : Nat}
    {d : DialogInstance}
    (hn : (keysOf s.dialogStack).Nodup)
    (hf : findIndex? (fun x => x.key == k) s.dialogStack = some i)
    (hget : s.dialogStack.get? i = some d) :
    (riseDialog s k).dialogStack.length = s.dialogStack.length ∧
    (riseDialog s k).activeKey = some k ∧
    (riseDialog s k).closedCallbackLog = s.closedCallbackLog ∧
    (∃ b : Bool, shownDialog (riseDialog s k) k = some (setEsc b d)) ∧
    (riseDialog s k).dialogStack.countP (fun x => x.key == k) = 1 := by
  have hi : i < s.dialogStack.length := findIndex?_lt_length hf
  have hdk : d.key = k := by
    obtain ⟨a, hga, hpa⟩ := findIndex?_get? hf
    rw [hget] at hga
    cases Option.some.inj hga
    exact eq_of_beq hpa
  have hkg : (keysOf s.dialogStack).get? i = some d.key := by
    rw [keysOf, List.get?_map, hget]
    rfl
  have hknotin : k ∉ keysOf (s.dialogStack.eraseIdx i) := by
    rw [keysOf_eraseIdx, ← hdk]
    exact not_mem_eraseIdx_of_nodup hn hkg
  rw [riseDialog]
  split
  next hf' =>
    rw [hf] at hf'
    simp at hf'
  next i' hf' =>
    rw [hf] at hf'
    cases Option.some.inj hf'
    split
    next hget' =>
      rw [hget] at hget'
      simp at hget'
    next dialog' hget' =>
      rw [hget] at hget'
      cases Option.some.inj hget'
      refine ⟨?_, rfl, rfl, ?_, ?_⟩
      · rw [length_update]
        show (insertDialogByPriority (s.dialogStack.eraseIdx i) d).length
          = s.dialogStack.length
        rw [insertDialogByPriority_eq_insertRec, length_insertRec,
          List.length_eraseIdx_of_lt hi]
        omega
      · exact shownDialog_update_insert rfl hdk hknotin
      · rw [countP_key_eq, keysOf_update]
        show (keysOf (insertDialogByPriority (s.dialogStack.eraseIdx i) d)).countP
          (fun s => s == k) = 1
        rw [insertDialogByPriority_eq_insertRec]
        obtain ⟨A, B, h1, h2⟩ := insertRec_append d (s.dialogStack.eraseIdx i)
        rw [h1, keysOf_append, keysOf_cons, List.countP_append, List.countP_cons]
        have hz : (keysOf A ++ keysOf B).countP (fun s => s == k) = 0 := by
          apply countP_beq_eq_zero
          rw [← keysOf_append, ← h2]
          exact hknotin
        rw [List.countP_append] at hz
        have hdk' : (d.key == k) = true := by
          rw [hdk]
          simp
        simp only [hdk', if_true]
        omega

/-- When the resolved key is absent, `showDialog` is exactly `createDialog`. -/
theorem showDialog_eq_create {s : DialogStoreState} {o : ShowDialogOptions}
    {g : String} (hnk : resolveShowKey o g ∉ keysOf s.dialogStack) :
    showDialog s o g = createDialog s (toCreateOptions o (resolveShowKey o g)) := by
  rw [showDialog]
  split
  next i hf =>
    exfalso
    obtain ⟨a, hga, hpa⟩ := findIndex?_get? hf
    apply hnk
    rw [← eq_of_beq hpa]
    exact mem_keysOf.mpr ⟨a, List.get?_mem hga, rfl⟩
  next hf => rfl

/-- When the resolved key is present at position `i`, `showDialog` sets the
entry visible and rises it. -/
theorem showDialog_eq_rise {s : DialogStoreState} {o : ShowDialogOptions}
    {g : String} {k : String} {i : Nat} (hkey : resolveShowKey o g = k)
    (hf : findIndex? (fun x => x.key == k) s.dialogStack = some i) :
    showDialog s o g
      = riseDialog { s with dialogStack := setVisibleTrueAt s.dialogStack i } k := by
  rw [showDialog, hkey]
  split
  next i' hf' =>
    rw [hf] at hf'
    cases Option.some.inj hf'
    rfl
  next hf' =>
    rw [hf] at hf'
    simp at hf'

/-- When the namespaced key is absent, `showExtensionDialog` is exactly
`createDialog` under the namespaced key. -/
theorem showExtensionDialog_eq_create {s : DialogStoreState} {o : ShowDialogOptions}
    {k : String} (hok : o.key = some k) (hke : k ≠ "")
    (hnk : extensionKeyOf k ∉ keysOf s.dialogStack) :
    showExtensionDialog s o = createDialog s (toCreateOptions o (extensionKeyOf k)) := by
  rw [showExtensionDialog, hok]
  simp only [Option.getD_some]
  rw [if_neg hke]
  split
  next hf => rfl
  next i hf =>
    exfalso
    obtain ⟨a, hga, hpa⟩ := findIndex?_get? hf
    apply hnk
    rw [← eq_of_beq hpa]
    exact mem_keysOf.mpr ⟨a, List.get?_mem hga, rfl⟩

/-- When the namespaced key is present at position `i`, `showExtensionDialog`
sets the entry visible and rises it. -/
theorem showExtensionDialog_eq_rise {s : DialogStoreState} {o : ShowDialogOptions}
    {k : String} {i : Nat} (hok : o.key = some k) (hke : k ≠ "")
    (hf : findIndex? (fun x => x.key == extensionKeyOf k) s.dialogStack = some i) :
    showExtensionDialog s o
      = riseDialog { s with dialogStack := setVisibleTrueAt s.dialogStack i }
          (extensionKeyOf k) := by
  rw [showExtensionDialog, hok]
  simp only [Option.getD_some]
  rw [if_neg hke]
  split
  next hf' =>
    rw [hf] at hf'
    simp at hf'
  next i' hf' =>
    rw [hf] at hf'
    cases Option.some.inj hf'
    rfl

/-- Anatomy of `createDialog`: the log is untouched, the new key is active,
the new stack is one longer than the capacity-checked stack, its keys are the
new key plus the surviving keys, and looking up the new key returns the
freshly built dialog (up to the recomputed `closeOnEscape`). -/
theorem createDialog_anatomy (s : DialogStoreState) (co : CreateDialogOptions)
    (hnk : co.key ∉ keysOf (createStack0 s)) :
    (createDialog s co).closedCallbackLog = s.closedCallbackLog ∧
    (createDialog s co).activeKey = some co.key ∧
    (createDialog s co).dialogStack.length = (createStack0 s).length + 1 ∧
    (∀ k', k' ∈ keysOf (createDialog s co).dialogStack ↔
      k' = co.key ∨ k' ∈ keysOf (createStack0 s)) ∧
    (∃ b : Bool, shownDialog (createDialog s co) co.key
      = some (setEsc b (buildDialog co))) := by
  refine ⟨rfl, rfl, ?_, ?_, ?_⟩
  · rw [createDialog, length_update]
    show (insertDialogByPriority (createStack0 s) (buildDialog co)).length
      = (createStack0 s).length + 1
    rw [insertDialogByPriority_eq_insertRec, length_insertRec]
  · intro k'
    rw [createDialog, keysOf_update]
    show k' ∈ keysOf (insertDialogByPriority (createStack0 s) (buildDialog co)) ↔ _
    rw [insertDialogByPriority_eq_insertRec, mem_keysOf_insertRec]
    exact Iff.rfl
  · exact shownDialog_update_insert rfl rfl hnk

theorem countP_beq_eq_one_of_nodup {L : List String} {k : String}
    (hnd : L.Nodup) (hk : k ∈ L) : L.countP (fun s => s == k) = 1 := by
  induction L with
  | nil => cases hk
  | cons a L ih =>
    rcases List.nodup_cons.mp hnd with ⟨ha, hL⟩
    rw [List.countP_cons]
    rcases List.mem_cons.mp hk with rfl | hkL
    · have hz : L.countP (fun s => s == k) = 0 := countP_beq_eq_zero ha
      rw [hz]
      simp
    · have hne : (a == k) = false := by
        apply beq_eq_false_iff_ne.mpr
        intro hak
        subst hak
        exact ha hkL
      rw [ih hL hkL, hne]
      simp

theorem isDialogOpen_of_shownDialog {s : DialogStoreState} {k : String}
    {d : DialogInstance} (h : shownDialog s k = some d) : isDialogOpen s k = true := by
  have h' : s.dialogStack.find? (fun x => x.key == k) = some d := h
  have hp := List.find?_some h'
  have hm := List.mem_of_find?_eq_some h'
  rw [isDialogOpen, List.any_eq_true]
  exact ⟨d, hm, hp⟩

theorem keysOf_createStack0_subset (s : DialogStoreState) :
    ∀ k', k' ∈ keysOf (createStack0 s) → k' ∈ keysOf s.dialogStack := by
  intro k' hk'
  rw [createStack0] at hk'
  by_cases hc : 10 ≤ s.dialogStack.length
  · rw [if_pos hc, keysOf_eraseIdx] at hk'
    exact List.eraseIdx_subset _ _ hk'
  · rwa [if_neg hc] at hk'

/-- Core of the re-`show` behaviour: when the key is held by entry `d` of a
well-formed stack, setting it visible and rising it keeps the length, the log
and the key count, makes the key active, and the entry found under the key
afterwards is `d` with `visible := true` and a recomputed `closeOnEscape`. -/
theorem reshow_core {s : DialogStoreState} {k : String} {d : DialogInstance}
    (hInv : Inv s) (hd : d ∈ s.dialogStack) (hdk : d.key = k) :
    ∃ i, findIndex? (fun x => x.key == k) s.dialogStack = some i ∧
      ((riseDialog { s with dialogStack := setVisibleTrueAt s.dialogStack i }
          k).dialogStack.length = s.dialogStack.length ∧
       (riseDialog { s with dialogStack := setVisibleTrueAt s.dialogStack i }
          k).activeKey = some k ∧
       (riseDialog { s with dialogStack := setVisibleTrueAt s.dialogStack i }
          k).closedCallbackLog = s.closedCallbackLog ∧
       (riseDialog { s with dialogStack := setVisibleTrueAt s.dialogStack i }
          k).dialogStack.countP (fun x => x.key == k)
         = s.dialogStack.countP (fun x => x.key == k) ∧
       ∃ b : Bool,
         shownDialog (riseDialog { s with dialogStack := setVisibleTrueAt s.dialogStack i } k) k
           = some (setEsc b { d with visible := true })) := by
  obtain ⟨i, hf, hget⟩ := findIndex?_key_of_nodup hInv.nodup hd hdk
  refine ⟨i, hf, ?_⟩
  have hkeysV : keysOf (setVisibleTrueAt s.dialogStack i) = keysOf s.dialogStack :=
    keysOf_setVisibleTrueAt _ _
  have hnV : (keysOf (setVisibleTrueAt s.dialogStack i)).Nodup := by
    rw [hkeysV]
    exact hInv.nodup
  have hfV : findIndex? (fun x => x.key == k) (setVisibleTrueAt s.dialogStack i) = some i := by
    rw [findIndex?_key_congr hkeysV, hf]
  have hgetV : (setVisibleTrueAt s.dialogStack i).get? i
      = some { d with visible := true } := by
    rw [setVisibleTrueAt_get?_self, hget]
    rfl
  obtain ⟨hlen, hact, hlog, hshown, hcount⟩ :=
    riseDialog_anatomy (s := { s with dialogStack := setVisibleTrueAt s.dialogStack i })
      hnV hfV hgetV
  refine ⟨?_, hact, hlog, ?_, hshown⟩
  · rw [hlen]
    exact length_setVisibleTrueAt _ _
  · rw [hcount, countP_key_eq]
    have hone : (keysOf s.dialogStack).countP (fun x => x == k) = 1 :=
      countP_beq_eq_one_of_nodup hInv.nodup (mem_keysOf.mpr ⟨d, hd, hdk⟩)
    rw [hone]

/-- Core of the eviction behaviour: creating a fresh-keyed dialog on a full
well-formed stack drops exactly the entry at position 0, keeps all other
entries, holds the stack at 10, and never touches the `onClose` log. -/
theorem create_evicts {s : DialogStoreState} (hInv : Inv s) (co : CreateDialogOptions)
    {d0 : DialogInstance}
    (hlen : s.dialogStack.length = 10)
    (hnk : co.key ∉ keysOf s.dialogStack)
    (hd0 : s.dialogStack.head? = some d0) :
    (createDialog s co).dialogStack.length = 10 ∧
    d0.key ∉ keysOf (createDialog s co).dialogStack ∧
    (∀ d ∈ s.dialogStack.tail, d.key ∈ keysOf (createDialog s co).dialogStack) ∧
    co.key ∈ keysOf (createDialog s co).dialogStack ∧
    (createDialog s co).closedCallbackLog = s.closedCallbackLog := by
  have hc : 10 ≤ s.dialogStack.length := by omega
  obtain ⟨t, hst⟩ : ∃ t, s.dialogStack = d0 :: t := by
    cases hcs : s.dialogStack with
    | nil =>
      rw [hcs] at hd0
      simp at hd0
    | cons a t =>
      rw [hcs] at hd0
      simp only [List.head?_cons, Option.some.injEq] at hd0
      exact ⟨t, by rw [hd0]⟩
  have hcs0 : createStack0 s = s.dialogStack.tail := by
    rw [createStack0, if_pos hc, List.eraseIdx_zero]
  have htail : s.dialogStack.tail = t := by
    rw [hst]
    rfl
  have hkt : keysOf s.dialogStack = d0.key :: keysOf t := by
    rw [hst]
    rfl
  have hd0nt : d0.key ∉ keysOf t := by
    have hnd := hInv.nodup
    rw [hkt] at hnd
    exact (List.nodup_cons.mp hnd).1
  have hnk0 : co.key ∉ keysOf (createStack0 s) := by
    rw [hcs0, htail]
    intro hmem
    apply hnk
    rw [hkt]
    exact List.mem_cons_of_mem _ hmem
  obtain ⟨hlog, hact, hlen', hkeys, hshown⟩ := createDialog_anatomy s co hnk0
  refine ⟨?_, ?_, ?_, ?_, hlog⟩
  · rw [hlen', hcs0, htail]
    have hlt : s.dialogStack.length = t.length + 1 := by
      rw [hst]
      rfl
    omega
  · intro hmem
    rcases (hkeys d0.key).mp hmem with h1 | h2
    · apply hnk
      rw [← h1, hkt]
      exact List.mem_cons_self _ _
    · rw [hcs0, htail] at h2
      exact hd0nt h2
  · intro d hd
    apply (hkeys d.key).mpr
    right
    rw [hcs0]
    exact mem_keysOf.mpr ⟨d, hd, rfl⟩
  · exact (hkeys co.key).mpr (Or.inl rfl)

/-! ## Concrete material for the scenario claims -/

/-- The `dialogComponentProps` of an entry created with no caller options,
as recomputed when the entry is the closable active dialog. -/
def defaultCreatedProps : DialogComponentProps :=
  { maximizable := false, maximized := false, closable := true, modal := true,
    closeOnEscape := true, dismissableMask := true, hasOnClose := false }

/-- The entry created by `show({ key: k, component })` with no further
options, while it is the active dialog. -/
def simpleEntry (k : String) : DialogInstance :=
  { key := k, visible := true, title := none, headerComponent := none, component := 0,
    contentProps := none, footerComponent := none,
    dialogComponentProps := defaultCreatedProps, priority := 1 }

/-- `show({ key: k, component })` with default priority (the generated-key
fallback is unused since a key is supplied). -/
def plainShowOp (k : String) : DialogOp :=
  .show { key := some k, component := 0 } "dialog-unused"

/-- `show({ key: k, component, priority: p })`. -/
def prioShowOp (k : String) (p : Int) : DialogOp :=
  .show { key := some k, component := 0, priority := some p } "dialog-unused"

/-- Ten `show` calls with distinct keys and default priority. -/
def tenShowOps : List DialogOp :=
  [plainShowOp "k1", plainShowOp "k2", plainShowOp "k3", plainShowOp "k4", plainShowOp "k5",
   plainShowOp "k6", plainShowOp "k7", plainShowOp "k8", plainShowOp "k9", plainShowOp "k10"]

/-- Ten default-priority `show` calls with distinct keys followed by an
eleventh with a fresh key. -/
def elevenShowOps : List DialogOp := tenShowOps ++ [plainShowOp "k11"]

/-- `show A` at priority 5, then `show B` at priority 1. -/
def abOps : List DialogOp := [prioShowOp "A" 5, prioShowOp "B" 1]

/-! ## The claims -/

/-- C1 (counterexample): open ten dialogs `k1`..`k10` with default priority
and distinct keys, then an eleventh with fresh key `k11`. The claim states
`isOpen "k1"` is then `false`; in fact it is `true` — equal-priority entries
are inserted at the front, so position 0 (the evicted slot) holds the most
recently opened dialog, not the first-opened one. -/
theorem c1_counterexample :
    isDialogOpen (runOps elevenShowOps) "k1" = true ∧
    ¬ isDialogOpen (runOps elevenShowOps) "k1" = false := by
  refine ⟨by decide, ?_⟩
  intro hcon
  have h1 : isDialogOpen (runOps elevenShowOps) "k1" = true := by decide
  rw [h1] at hcon
  cases hcon

/-- C1 (amended): after ten default-priority `show` calls with distinct keys
and an eleventh with a fresh key, the evicted entry is the one at index 0,
which under equal priorities is the most recently opened (tenth) dialog; the
first-opened dialog remains open. -/
theorem c1_amended :
    isDialogOpen (runOps elevenShowOps) "k10" = false ∧
    isDialogOpen (runOps elevenShowOps) "k1" = true ∧
    (runOps elevenShowOps).dialogStack.length = 10 ∧
    keysOf (runOps elevenShowOps).dialogStack
      = ["k11", "k9", "k8", "k7", "k6", "k5", "k4", "k3", "k2", "k1"] := by
  refine ⟨by decide, by decide, by decide, by decide⟩

/-- C2: in every reachable state — i.e. after every sequence of public
operations (`show`, `showExtension`, `rise`, `close`) from the initial
state — every adjacent pair of stack entries satisfies
`priority[i] ≥ priority[i+1]`. -/
theorem c2_priority_ordering (ops : List DialogOp) :
    List.Chain' (fun a b : DialogInstance => b.priority ≤ a.priority)
      (runOps ops).dialogStack := by
  have h := (inv_runOps ops).sorted
  rw [priosOf] at h
  exact (List.pairwise_map.mp h).chain'

/-- C3: in every reachable state, at most one entry has `closeOnEscape =
true`, and any entry with `closeOnEscape = true` is the entry whose key is
the active key and its `closable` flag is true. -/
theorem c3_single_active_escape (ops : List DialogOp) :
    (runOps ops).dialogStack.countP escFlag ≤ 1 ∧
    ∀ d ∈ (runOps ops).dialogStack, escFlag d = true →
      some d.key = (runOps ops).activeKey ∧ d.dialogComponentProps.closable = true :=
  ⟨(inv_runOps ops).escAtMostOne, (inv_runOps ops).escActive⟩

/-- C3 witness: after a single `show`, the single shown entry carries the
escape flag, and the theorem yields that its key is the active key and it is
closable. -/
theorem c3_witness :
    (runOps [plainShowOp "a"]).dialogStack.countP escFlag ≤ 1 ∧
    some "a" = (runOps [plainShowOp "a"]).activeKey ∧
    (simpleEntry "a").dialogComponentProps.closable = true := by
  have h := c3_single_active_escape [plainShowOp "a"]
  have hm : simpleEntry "a" ∈ (runOps [plainShowOp "a"]).dialogStack := by decide
  have hf : escFlag (simpleEntry "a") = true := by decide
  have h2 := h.2 (simpleEntry "a") hm hf
  exact ⟨h.1, h2.1, h2.2⟩

/-- C4: in every reachable state, if the stack is empty the active key is
null, and if the active key is set it names the key of a stack entry. -/
theorem c4_active_key_liveness (ops : List DialogOp) :
    ((runOps ops).dialogStack = [] → (runOps ops).activeKey = none) ∧
    (∀ k, (runOps ops).activeKey = some k → k ∈ keysOf (runOps ops).dialogStack) :=
  ⟨(inv_runOps ops).emptyNone, (inv_runOps ops).activeMem⟩

/-- C4 witness: on the empty run the active key is null, and after showing
`a` the active key `a` is a member of the stack's keys. -/
theorem c4_witness :
    (runOps ([] : List DialogOp)).activeKey = none ∧
    "a" ∈ keysOf (runOps [plainShowOp "a"]).dialogStack := by
  refine ⟨(c4_active_key_liveness []).1 rfl, ?_⟩
  exact (c4_active_key_liveness [plainShowOp "a"]).2 "a" (by decide)

/-- C5: the stack never exceeds 10 entries, and when `show` (or
`showExtension`) creates a fresh-keyed entry while the stack holds 10, the
entry at index 0 — and only that one — is removed before insertion, and no
`onClose` callback is invoked by the operation. -/
theorem c5_capacity_and_eviction :
    (∀ ops : List DialogOp, (runOps ops).dialogStack.length ≤ 10) ∧
    (∀ (ops : List DialogOp) (o : ShowDialogOptions) (g : String) (d0 : DialogInstance),
      (runOps ops).dialogStack.length = 10 →
      resolveShowKey o g ∉ keysOf (runOps ops).dialogStack →
      (runOps ops).dialogStack.head? = some d0 →
      (showDialog (runOps ops) o g).dialogStack.length = 10 ∧
      d0.key ∉ keysOf (showDialog (runOps ops) o g).dialogStack ∧
      (∀ d ∈ (runOps ops).dialogStack.tail,
        d.key ∈ keysOf (showDialog (runOps ops) o g).dialogStack) ∧
      resolveShowKey o g ∈ keysOf (showDialog (runOps ops) o g).dialogStack ∧
      (showDialog (runOps ops) o g).closedCallbackLog
        = (runOps ops).closedCallbackLog) ∧
    (∀ (ops : List DialogOp) (o : ShowDialogOptions) (k : String) (d0 : DialogInstance),
      o.key = some k → k ≠ "" →
      (runOps ops).dialogStack.length = 10 →
      extensionKeyOf k ∉ keysOf (runOps ops).dialogStack →
      (runOps ops).dialogStack.head? = some d0 →
      (showExtensionDialog (runOps ops) o).dialogStack.length = 10 ∧
      d0.key ∉ keysOf (showExtensionDialog (runOps ops) o).dialogStack ∧
      (∀ d ∈ (runOps ops).dialogStack.tail,
        d.key ∈ keysOf (showExtensionDialog (runOps ops) o).dialogStack) ∧
      extensionKeyOf k ∈ keysOf (showExtensionDialog (runOps ops) o).dialogStack ∧
      (showExtensionDialog (runOps ops) o).closedCallbackLog
        = (runOps ops).closedCallbackLog) := by
  refine ⟨fun ops => (inv_runOps ops).capacity, ?_, ?_⟩
  · intro ops o g d0 hlen hnk hd0
    rw [showDialog_eq_create hnk]
    exact create_evicts (inv_runOps ops) (toCreateOptions o (resolveShowKey o g)) hlen hnk hd0
  · intro ops o k d0 hok hke hlen hnk hd0
    rw [showExtensionDialog_eq_create hok hke hnk]
    exact create_evicts (inv_runOps ops) (toCreateOptions o (extensionKeyOf k)) hlen hnk hd0

/-- C5 witness: on the concrete full stack of `k1`..`k10`, showing `k11`
holds the stack at 10, drops the index-0 key `k10`, keeps the rest and logs
no `onClose` invocation. -/
theorem c5_witness :
    (showDialog (runOps tenShowOps) { key := some "k11", component := 0 }
      "dialog-unused").dialogStack.length = 10 ∧
    (simpleEntry "k10").key ∉ keysOf (showDialog (runOps tenShowOps)
      { key := some "k11", component := 0 } "dialog-unused").dialogStack ∧
    (∀ d ∈ (runOps tenShowOps).dialogStack.tail,
      d.key ∈ keysOf (showDialog (runOps tenShowOps)
        { key := some "k11", component := 0 } "dialog-unused").dialogStack) ∧
    resolveShowKey { key := some "k11", component := 0 } "dialog-unused"
      ∈ keysOf (showDialog (runOps tenShowOps)
        { key := some "k11", component := 0 } "dialog-unused").dialogStack ∧
    (showDialog (runOps tenShowOps) { key := some "k11", component := 0 }
      "dialog-unused").closedCallbackLog = (runOps tenShowOps).closedCallbackLog :=
  c5_capacity_and_eviction.2.1 tenShowOps { key := some "k11", component := 0 }
    "dialog-unused" (simpleEntry "k10") (by decide) (by decide) (by decide)

/-- C6: for the stack `[A (priority 5), B (priority 1)]`, `rise "B"` keeps
the order `[A, B]` while making `B` active; in general `rise` on a present
key removes the entry and re-inserts it at the index computed by
`insertDialogByPriority` — immediately before the first remaining entry
whose priority is `≤` its own, at the end when there is none. -/
theorem c6_rise_scenario_and_general :
    (keysOf (runOps abOps).dialogStack = ["A", "B"] ∧
     keysOf (riseDialog (runOps abOps) "B").dialogStack = ["A", "B"] ∧
     (riseDialog (runOps abOps) "B").activeKey = some "B") ∧
    (∀ (s : DialogStoreState) (k : String) (i : Nat) (d : DialogInstance),
      findIndex? (fun x => x.key == k) s.dialogStack = some i →
      s.dialogStack.get? i = some d →
      keysOf (riseDialog s k).dialogStack
        = keysOf (insertDialogByPriority (s.dialogStack.eraseIdx i) d) ∧
      (riseDialog s k).activeKey = some k ∧
      insertDialogByPriority (s.dialogStack.eraseIdx i) d
        = (s.dialogStack.eraseIdx i).take (insertIndexFor (s.dialogStack.eraseIdx i) d)
          ++ d :: (s.dialogStack.eraseIdx i).drop
              (insertIndexFor (s.dialogStack.eraseIdx i) d)) := by
  constructor
  · exact ⟨by decide, by decide, by decide⟩
  · intro s k i d hf hget
    rw [riseDialog]
    split
    next hf' =>
      rw [hf] at hf'
      simp at hf'
    next i' hf' =>
      rw [hf] at hf'
      cases Option.some.inj hf'
      split
      next hget' =>
        rw [hget] at hget'
        simp at hget'
      next dialog' hget' =>
        rw [hget] at hget'
        cases Option.some.inj hget'
        exact ⟨keysOf_update _, rfl, rfl⟩

/-- C6 witness: the general part applied to the concrete `[A, B]` stack. -/
theorem c6_witness :
    keysOf (riseDialog (runOps abOps) "B").dialogStack
      = keysOf (insertDialogByPriority ((runOps abOps).dialogStack.eraseIdx 1)
          (simpleEntry "B")) ∧
    (riseDialog (runOps abOps) "B").activeKey = some "B" := by
  have h := (c6_rise_scenario_and_general).2 (runOps abOps) "B" 1 (simpleEntry "B")
    (by decide) (by decide)
  exact ⟨h.1, h.2.1⟩

/-- C7: `show` with a key already in the stack creates no second entry: the
stack length and the number of entries under the key are unchanged, the
entry's `visible` flag is set, the key becomes active, and the call returns
the existing entry. -/
theorem c7_idempotent_reshow (ops : List DialogOp) (o : ShowDialogOptions) (g k : String)
    (hok : o.key = some k) (hke : k ≠ "")
    (hopen : isDialogOpen (runOps ops) k = true) :
    (showDialog (runOps ops) o g).dialogStack.length = (runOps ops).dialogStack.length ∧
    (showDialog (runOps ops) o g).activeKey = some k ∧
    (showDialog (runOps ops) o g).dialogStack.countP (fun d => d.key == k)
      = (runOps ops).dialogStack.countP (fun d => d.key == k) ∧
    ∃ d', shownDialog (showDialog (runOps ops) o g) k = some d' ∧
      d'.visible = true ∧ d'.key = k := by
  have hInv := inv_runOps ops
  have hkey : resolveShowKey o g = k := by
    rw [resolveShowKey, hok]
    simp [hke]
  rw [isDialogOpen, List.any_eq_true] at hopen
  obtain ⟨d, hd, hpd⟩ := hopen
  have hdk : d.key = k := eq_of_beq hpd
  obtain ⟨i, hf, hrest⟩ := reshow_core hInv hd hdk
  rw [showDialog_eq_rise hkey hf]
  obtain ⟨hlen, hact, hlog, hcount, b, hshown⟩ := hrest
  exact ⟨hlen, hact, hcount, setEsc b { d with visible := true }, hshown, rfl, hdk⟩

/-- C7 witness: re-showing the key `a` on the singleton stack `[a]`. -/
theorem c7_witness :
    (showDialog (runOps [plainShowOp "a"]) { key := some "a", component := 7 }
      "g").dialogStack.length = (runOps [plainShowOp "a"]).dialogStack.length ∧
    (showDialog (runOps [plainShowOp "a"]) { key := some "a", component := 7 }
      "g").activeKey = some "a" ∧
    (showDialog (runOps [plainShowOp "a"]) { key := some "a", component := 7 }
      "g").dialogStack.countP (fun d => d.key == "a")
      = (runOps [plainShowOp "a"]).dialogStack.countP (fun d => d.key == "a") ∧
    ∃ d', shownDialog (showDialog (runOps [plainShowOp "a"])
        { key := some "a", component := 7 } "g") "a" = some d' ∧
      d'.visible = true ∧ d'.key = "a" :=
  c7_idempotent_reshow [plainShowOp "a"] { key := some "a", component := 7 } "g" "a"
    rfl (by decide) (by decide)

/-- C8: `showExtension` namespaces its key — `foo` becomes `extension-foo`
and an already-prefixed key is kept as is — and the addressed entry (created
or existing) lives under the namespaced key. -/
theorem c8_extension_namespacing (ops : List DialogOp) (o : ShowDialogOptions) (k : String)
    (hok : o.key = some k) (hke : k ≠ "") :
    (extensionKeyOf "foo" = "extension-foo" ∧
     extensionKeyOf "extension-foo" = "extension-foo") ∧
    isDialogOpen (showExtensionDialog (runOps ops) o) (extensionKeyOf k) = true ∧
    ∃ d', shownDialog (showExtensionDialog (runOps ops) o) (extensionKeyOf k) = some d' ∧
      d'.key = extensionKeyOf k := by
  have hInv := inv_runOps ops
  refine ⟨⟨by decide, by decide⟩, ?_⟩
  by_cases hmem : extensionKeyOf k ∈ keysOf (runOps ops).dialogStack
  · obtain ⟨d, hd, hdk⟩ := mem_keysOf.mp hmem
    obtain ⟨i, hf, hrest⟩ := reshow_core hInv hd hdk
    rw [showExtensionDialog_eq_rise hok hke hf]
    obtain ⟨hlen, hact, hlog, hcount, b, hshown⟩ := hrest
    exact ⟨isDialogOpen_of_shownDialog hshown,
      setEsc b { d with visible := true }, hshown, hdk⟩
  · rw [showExtensionDialog_eq_create hok hke hmem]
    have hnk0 : (toCreateOptions o (extensionKeyOf k)).key
        ∉ keysOf (createStack0 (runOps ops)) := by
      intro hc
      exact hmem (keysOf_createStack0_subset _ _ hc)
    obtain ⟨hlog, hact, hlen, hkeys, b, hshown⟩ :=
      createDialog_anatomy (runOps ops) (toCreateOptions o (extensionKeyOf k)) hnk0
    exact ⟨isDialogOpen_of_shownDialog hshown, setEsc b _, hshown, rfl⟩

/-- C8 witness: `showExtension { key := "foo" }` on the empty store. -/
theorem c8_witness :
    isDialogOpen (showExtensionDialog (runOps []) { key := some "foo", component := 0 })
      (extensionKeyOf "foo") = true ∧
    ∃ d', shownDialog (showExtensionDialog (runOps [])
        { key := some "foo", component := 0 }) (extensionKeyOf "foo") = some d' ∧
      d'.key = extensionKeyOf "foo" :=
  (c8_extension_namespacing [] { key := some "foo", component := 0 } "foo"
    rfl (by decide)).2

/-- C9 (counterexample): at the random source `0.abcdefgh`, the generated
key is `dialog-abcdefg` — its suffix after `dialog-` has 7 characters, so no
6-character decomposition exists (`slice(2, 9)` spans 7 code units). -/
theorem c9_counterexample :
    ¬ ∃ t : String, genDialogKey "0.abcdefgh" = "dialog-" ++ t ∧ t.length = 6 := by
  rintro ⟨t, ht, hl⟩
  have h1 : (genDialogKey "0.abcdefgh").length = 14 := by decide
  rw [ht, String.length_append] at h1
  have h7 : "dialog-".length = 7 := by decide
  rw [h7] at h1
  omega

/-- C9 (amended): the Key Generator produces `dialog-` followed by the
characters at indices 2 through 8 of the random base-36 digit string — at
most 7 of them (exactly 7 for typical random values) — so every generated
key starts with `dialog-`. -/
theorem c9_amended (r : String) :
    genDialogKey r = String.mk ("dialog-".data ++ ((r.data.drop 2).take 7)) ∧
    ((r.data.drop 2).take 7).length ≤ 7 ∧
    (genDialogKey r).data.take 7 = "dialog-".data := by
  refine ⟨rfl, List.length_take_le _ _, ?_⟩
  show ("dialog-".data ++ ((r.data.drop 2).take 7)).take 7 = "dialog-".data
  have h7 : ("dialog-".data).length = 7 := by decide
  rw [← h7, List.take_left]

/-- C10: re-`show`ing (or re-`showExtension`ing) an existing key discards the
newly supplied options: the entry found under the key afterwards keeps every
field of the original entry — title, header/footer/body components, content
props, priority and all `dialogComponentProps` fields other than the
recomputed `closeOnEscape` — with only `visible` forced to `true`. -/
theorem c10_reshow_discards_options :
    (∀ (ops : List DialogOp) (o : ShowDialogOptions) (g k : String) (d : DialogInstance),
      o.key = some k → k ≠ "" → d ∈ (runOps ops).dialogStack → d.key = k →
      ∃ d', shownDialog (showDialog (runOps ops) o g) k = some d' ∧
        d'.visible = true ∧ d'.key = d.key ∧ d'.title = d.title ∧
        d'.headerComponent = d.headerComponent ∧
        d'.footerComponent = d.footerComponent ∧
        d'.component = d.component ∧ d'.contentProps = d.contentProps ∧
        d'.priority = d.priority ∧
        d'.dialogComponentProps.maximizable = d.dialogComponentProps.maximizable ∧
        d'.dialogComponentProps.maximized = d.dialogComponentProps.maximized ∧
        d'.dialogComponentProps.closable = d.dialogComponentProps.closable ∧
        d'.dialogComponentProps.modal = d.dialogComponentProps.modal ∧
        d'.dialogComponentProps.dismissableMask
          = d.dialogComponentProps.dismissableMask ∧
        d'.dialogComponentProps.hasOnClose = d.dialogComponentProps.hasOnClose) ∧
    (∀ (ops : List DialogOp) (o : ShowDialogOptions) (k : String) (d : DialogInstance),
      o.key = some k → k ≠ "" → d ∈ (runOps ops).dialogStack →
      d.key = extensionKeyOf k →
      ∃ d', shownDialog (showExtensionDialog (runOps ops) o) (extensionKeyOf k)
          = some d' ∧
        d'.visible = true ∧ d'.key = d.key ∧ d'.title = d.title ∧
        d'.headerComponent = d.headerComponent ∧
        d'.footerComponent = d.footerComponent ∧
        d'.component = d.component ∧ d'.contentProps = d.contentProps ∧
        d'.priority = d.priority ∧
        d'.dialogComponentProps.maximizable = d.dialogComponentProps.maximizable ∧
        d'.dialogComponentProps.maximized = d.dialogComponentProps.maximized ∧
        d'.dialogComponentProps.closable = d.dialogComponentProps.closable ∧
        d'.dialogComponentProps.modal = d.dialogComponentProps.modal ∧
        d'.dialogComponentProps.dismissableMask
          = d.dialogComponentProps.dismissableMask ∧
        d'.dialogComponentProps.hasOnClose = d.dialogComponentProps.hasOnClose) := by
  constructor
  · intro ops o g k d hok hke hd hdk
    have hInv := inv_runOps ops
    have hkey : resolveShowKey o g = k := by
      rw [resolveShowKey, hok]
      simp [hke]
    obtain ⟨i, hf, hrest⟩ := reshow_core hInv hd hdk
    rw [showDialog_eq_rise hkey hf]
    obtain ⟨hlen, hact, hlog, hcount, b, hshown⟩ := hrest
    exact ⟨setEsc b { d with visible := true }, hshown, rfl, rfl, rfl, rfl, rfl, rfl,
      rfl, rfl, rfl, rfl, rfl, rfl, rfl, rfl⟩
  · intro ops o k d hok hke hd hdk
    have hInv := inv_runOps ops
    obtain ⟨i, hf, hrest⟩ := reshow_core hInv hd hdk
    rw [showExtensionDialog_eq_rise hok hke hf]
    obtain ⟨hlen, hact, hlog, hcount, b, hshown⟩ := hrest
    exact ⟨setEsc b { d with visible := true }, hshown, rfl, rfl, rfl, rfl, rfl, rfl,
      rfl, rfl, rfl, rfl, rfl, rfl, rfl, rfl⟩

/-- C10 witness: re-showing `a` (with different options) on the singleton
stack `[a]`, instantiating the preserved-fields conclusion. -/
theorem c10_witness :
    ∃ d', shownDialog (showDialog (runOps [plainShowOp "a"])
        { key := some "a", component := 9, title := some "t" } "g") "a" = some d' ∧
      d'.visible = true ∧ d'.key = (simpleEntry "a").key ∧
      d'.title = (simpleEntry "a").title ∧
      d'.headerComponent = (simpleEntry "a").headerComponent ∧
      d'.footerComponent = (simpleEntry "a").footerComponent ∧
      d'.component = (simpleEntry "a").component ∧
      d'.contentProps = (simpleEntry "a").contentProps ∧
      d'.priority = (simpleEntry "a").priority ∧
      d'.dialogComponentProps.maximizable
        = (simpleEntry "a").dialogComponentProps.maximizable ∧
      d'.dialogComponentProps.maximized
        = (simpleEntry "a").dialogComponentProps.maximized ∧
      d'.dialogComponentProps.closable
        = (simpleEntry "a").dialogComponentProps.closable ∧
      d'.dialogComponentProps.modal = (simpleEntry "a").dialogComponentProps.modal ∧
      d'.dialogComponentProps.dismissableMask
        = (simpleEntry "a").dialogComponentProps.dismissableMask ∧
      d'.dialogComponentProps.hasOnClose
        = (simpleEntry "a").dialogComponentProps.hasOnClose :=
  c10_reshow_discards_options.1 [plainShowOp "a"]
    { key := some "a", component := 9, title := some "t" } "g" "a" (simpleEntry "a")
    rfl (by decide) (by decide) (by decide)

end DialogStore
